import Mathlib

/- Shallow embedding of the scripts_nlmaps repository.

   Embedded sources:
   - src/util/mrl.py, class MRL: delete_first_n_occurences, count_arguments.
   - src/util/mrl.py, class NLmaps: preprocess_mrl, linearise,
     insert_pass_through_words, transform_if_tree, functionalise.
   - src/eval.py: the significance-triple part of evaluate.

   Modelling conventions:
   - Python str is List Char (internally) or String (at the interfaces).
   - An uncaught Python exception is Option.none; normal return is some.
   - Each re.sub call of preprocess_mrl is embedded as a hand-compiled
     matcher for its concrete pattern (literals, lazy and greedy character
     class repetitions with full backtracking) driven by gsub, which scans
     left to right and substitutes non-overlapping matches like re.sub.
   - Python int() is pyParseInt (optional surrounding whitespace, optional
     sign, non-empty run of ASCII digits).
   - The \b word boundary of re.search is modelled for the ASCII range
     (word chars: alphanumerics and the underscore).  -/

/-- The apostrophe character, written via its code point. -/
def squote : Char := Char.ofNat 39

/-- The space sentinel € used by the NLmaps escape protocol. -/
def euro : Char := Char.ofNat 8364

/-- The character class [^()] of the preprocess_mrl patterns. -/
def nonParen (c : Char) : Bool := c != '(' && c != ')'

/-- The character class [^,()] of the SAVEAPO lookaround pattern. -/
def notStruct (c : Char) : Bool := c != ',' && c != '(' && c != ')'

/-- A literal ASCII space, the class of the patterns' " *" parts. -/
def isSpaceChar (c : Char) : Bool := c == ' '

/-- The class of the regex dot: any character except a newline. -/
def notNl (c : Char) : Bool := c != '\n'

/-- Python whitespace (the \s class and str.strip set, ASCII range). -/
def isPySpace (c : Char) : Bool :=
  c == ' ' || c == '\t' || c == '\n' || c == '\r' || c == Char.ofNat 11 || c == Char.ofNat 12

/-- Python \b word characters, ASCII range: alphanumerics and underscore. -/
def isWordChar (c : Char) : Bool := c.isAlphanum || c == '_'

/-- Python str.strip(): drop whitespace from both ends. -/
def pyStrip (s : List Char) : List Char :=
  ((s.dropWhile isPySpace).reverse.dropWhile isPySpace).reverse

/-- One pass of re.sub(r"\s+", " ", s): collapse every run of whitespace
to a single ASCII space.  The flag records whether the previous character
belonged to a whitespace run. -/
def collapseWsAux : Bool → List Char → List Char
  | _, [] => []
  | inWs, c :: rest =>
    if isPySpace c then
      if inWs then collapseWsAux true rest else ' ' :: collapseWsAux true rest
    else c :: collapseWsAux false rest

/-- re.sub(r"\s+", " ", s). -/
def collapseWs (s : List Char) : List Char := collapseWsAux false s

/-- Python s.split(" "): split at every single space, keeping empty parts. -/
def splitSpaceAux : List Char → List Char → List (List Char)
  | cur, [] => [cur.reverse]
  | cur, c :: rest =>
    if c = ' ' then cur.reverse :: splitSpaceAux [] rest
    else splitSpaceAux (c :: cur) rest

/-- Python s.split(" ") on a List Char. -/
def pySplitList (s : List Char) : List (List Char) := splitSpaceAux [] s

/-- Python s.split(" ") on a String. -/
def pySplit (s : String) : List String := (pySplitList s.toList).map List.asString

/-- Python str.replace: replace all non-overlapping occurrences of pat,
left to right.  Fuel-based recursion; every replacement consumes at least
one character, so fuel = length of the scanned list never runs out. -/
def replaceListAux (pat rep : List Char) : Nat → List Char → List Char
  | _, [] => []
  | 0, s => s
  | fuel + 1, c :: rest =>
    if pat.isPrefixOf (c :: rest) then
      rep ++ replaceListAux pat rep fuel ((c :: rest).drop pat.length)
    else c :: replaceListAux pat rep fuel rest

/-- Python s.replace(pat, rep) for a non-empty pattern (every pattern the
repository passes is a non-empty literal; the empty pattern is mapped to
the identity here). -/
def pyReplace (s pat rep : String) : String :=
  if pat.toList = [] then s
  else (replaceListAux pat.toList rep.toList s.toList.length s.toList).asString

/-- Python ''.join: concatenation of a list of strings. -/
def pyJoin : List String → String
  | [] => ""
  | s :: rest => s ++ pyJoin rest

/-- A non-empty run of ASCII digits, read as a number. -/
def pyDigits (ds : List Char) : Option Nat :=
  if ds.isEmpty then none
  else if ds.all Char.isDigit then
    some (ds.foldl (fun n c => n * 10 + (c.toNat - 48)) 0)
  else none

/-- Python int(s) on a decimal string: optional surrounding whitespace,
optional sign, then a non-empty digit run; anything else raises (none). -/
def pyParseInt (s : String) : Option Int :=
  match pyStrip s.toList with
  | '-' :: ds => (pyDigits ds).map (fun n => -(n : Int))
  | '+' :: ds => (pyDigits ds).map (fun n => (n : Int))
  | ds => (pyDigits ds).map (fun n => (n : Int))

/-- Split a list at the first occurrence of c (helper for rsplitOnce). -/
def splitAtFirst : List Char → Char → List Char × List Char
  | [], _ => ([], [])
  | x :: xs, c =>
    if x = c then ([], xs)
    else
      let p := splitAtFirst xs c
      (x :: p.1, p.2)

/-- Split a list at the LAST occurrence of c: the pair (before, after).
This is Python s.rsplit(c) when c occurs exactly once in s. -/
def rsplitOnce (cs : List Char) (c : Char) : List Char × List Char :=
  let p := splitAtFirst cs.reverse c
  (p.2.reverse, p.1.reverse)

/-- Consume a literal character sequence; return the remainder. -/
def eatLit : List Char → List Char → Option (List Char)
  | [], s => some s
  | _ :: _, [] => none
  | c :: cs, x :: xs => if x = c then eatLit cs xs else none

/-- Lazy repetition of a character class (the regex X*?): try the shortest
run first and hand (run, remainder) to the continuation; on failure extend
the run by one class character, exactly like regex backtracking. -/
def lazyRunAux {α : Type} (p : Char → Bool) (k : List Char → List Char → Option α) :
    List Char → List Char → Option α
  | acc, [] => k acc.reverse []
  | acc, c :: rest =>
    match k acc.reverse (c :: rest) with
    | some r => some r
    | none => if p c then lazyRunAux p k (c :: acc) rest else none

/-- The regex X*? over class p followed by continuation k. -/
def lazyRun {α : Type} (p : Char → Bool) (k : List Char → List Char → Option α)
    (s : List Char) : Option α :=
  lazyRunAux p k [] s

/-- The regex X+? over class p followed by continuation k. -/
def lazyRun1 {α : Type} (p : Char → Bool) (k : List Char → List Char → Option α) :
    List Char → Option α
  | [] => none
  | c :: rest => if p c then lazyRunAux p k [c] rest else none

/-- Greedy repetition of a character class (the regex X*): try the longest
run first, backtracking to shorter runs when the continuation fails. -/
def greedyRunAux {α : Type} (p : Char → Bool) (k : List Char → List Char → Option α) :
    List Char → List Char → Option α
  | acc, [] => k acc.reverse []
  | acc, c :: rest =>
    if p c then
      match greedyRunAux p k (c :: acc) rest with
      | some r => some r
      | none => k acc.reverse (c :: rest)
    else k acc.reverse (c :: rest)

/-- The regex X* over class p followed by continuation k. -/
def greedyRun {α : Type} (p : Char → Bool) (k : List Char → List Char → Option α)
    (s : List Char) : Option α :=
  greedyRunAux p k [] s

/-- re.sub driver: scan left to right; at each position try the matcher
(which returns the replacement text and the remainder after the match);
on a match emit the replacement and continue after it, else keep the
character.  Every matcher below consumes at least one character, so the
initial fuel (the length of the string) never runs out. -/
def gsubAux (m : List Char → Option (List Char × List Char)) : Nat → List Char → List Char
  | _, [] => []
  | 0, s => s
  | fuel + 1, c :: rest =>
    match m (c :: rest) with
    | some (rep, remainder) => rep ++ gsubAux m fuel remainder
    | none => c :: gsubAux m fuel rest

/-- re.sub of one concrete pattern over a whole string. -/
def gsub (m : List Char → Option (List Char × List Char)) (s : List Char) : List Char :=
  gsubAux m s.length s

/-- Pattern (','[^()]*?),([^()]*?') with replacement \g1SAVECOMMA\g2:
a literal quote-comma-quote, a lazy non-paren run, the comma to save,
a lazy non-paren run, a closing quote. -/
def matchStep1 (s : List Char) : Option (List Char × List Char) :=
  (eatLit [squote, ',', squote] s).bind (fun s1 =>
    lazyRun nonParen (fun x s2 =>
      match s2 with
      | ',' :: s3 =>
        lazyRun nonParen (fun y s4 =>
          match s4 with
          | c :: s5 =>
            if c = squote then
              some ([squote, ',', squote] ++ x ++ "SAVECOMMA".toList ++ y ++ [squote], s5)
            else none
          | [] => none) s3
      | _ => none) s1)

/-- Pattern ,' *([^()]*?)\((.*?) *'\) with replacement ,'\g1BRACKETOPEN\g2'). -/
def matchStep2 (s : List Char) : Option (List Char × List Char) :=
  (eatLit [',', squote] s).bind (fun s1 =>
    greedyRun isSpaceChar (fun _ s2 =>
      lazyRun nonParen (fun g1 s3 =>
        match s3 with
        | '(' :: s4 =>
          lazyRun notNl (fun g2 s5 =>
            greedyRun isSpaceChar (fun _ s6 =>
              match s6 with
              | a :: b :: s7 =>
                if a = squote ∧ b = ')' then
                  some ([',', squote] ++ g1 ++ "BRACKETOPEN".toList ++ g2 ++ [squote, ')'], s7)
                else none
              | _ => none) s5) s4
        | _ => none) s2) s1)

/-- Pattern ,' *([^()]*?)\)([^()]*?) *'\) with replacement ,'\g1BRACKETCLOSE\g2'). -/
def matchStep3 (s : List Char) : Option (List Char × List Char) :=
  (eatLit [',', squote] s).bind (fun s1 =>
    greedyRun isSpaceChar (fun _ s2 =>
      lazyRun nonParen (fun g1 s3 =>
        match s3 with
        | ')' :: s4 =>
          lazyRun nonParen (fun g2 s5 =>
            greedyRun isSpaceChar (fun _ s6 =>
              match s6 with
              | a :: b :: s7 =>
                if a = squote ∧ b = ')' then
                  some ([',', squote] ++ g1 ++ "BRACKETCLOSE".toList ++ g2 ++ [squote, ')'], s7)
                else none
              | _ => none) s5) s4
        | _ => none) s2) s1)

/-- Whether an optional neighbour character exists and is non-structural
(the lookaround classes of the SAVEAPO pattern; an edge never matches). -/
def optNotStruct : Option Char → Bool
  | some p => notStruct p
  | none => false

/-- re.sub((?<=[^,()])'(?=[^,()]), "SAVEAPO"): replace each apostrophe
whose original neighbours on both sides are non-structural.  The previous
character of the ORIGINAL string is threaded through, as the lookbehind of
re.sub inspects the input string, not the output. -/
def saveApoAux : Option Char → List Char → List Char
  | _, [] => []
  | prev, c :: rest =>
    if c = squote ∧ optNotStruct prev = true ∧ optNotStruct rest.head? = true then
      "SAVEAPO".toList ++ saveApoAux (some c) rest
    else c :: saveApoAux (some c) rest

/-- Pattern and\(' *([^()]+?) *',' *([^()]+?) *'\) with replacement
and(\g1@s','\g2@s). -/
def matchStep6 (s : List Char) : Option (List Char × List Char) :=
  (eatLit ['a', 'n', 'd', '(', squote] s).bind (fun s1 =>
    greedyRun isSpaceChar (fun _ s2 =>
      lazyRun1 nonParen (fun g1 s3 =>
        greedyRun isSpaceChar (fun _ s4 =>
          (eatLit [squote, ',', squote] s4).bind (fun s5 =>
            greedyRun isSpaceChar (fun _ s6 =>
              lazyRun1 nonParen (fun g2 s7 =>
                greedyRun isSpaceChar (fun _ s8 =>
                  (eatLit [squote, ')'] s8).bind (fun s9 =>
                    some ("and(".toList ++ g1 ++ ['@', 's', squote, ',', squote]
                           ++ g2 ++ ['@', 's', ')'], s9))) s7) s6) s5)) s3) s2) s1)

/-- Pattern \(' *([^()]+?) *'\) with replacement (\g1@s). -/
def matchStep7 (s : List Char) : Option (List Char × List Char) :=
  (eatLit ['(', squote] s).bind (fun s1 =>
    greedyRun isSpaceChar (fun _ s2 =>
      lazyRun1 nonParen (fun g1 s3 =>
        greedyRun isSpaceChar (fun _ s4 =>
          (eatLit [squote, ')'] s4).bind (fun s5 =>
            some ('(' :: (g1 ++ ['@', 's', ')']), s5))) s3) s2) s1)

/-- Pattern ([,)(])or\(([^()]+?)','([^()]+?)@s\) with replacement
\g1or(\g2@s','\g3@s). -/
def matchStep8 (s : List Char) : Option (List Char × List Char) :=
  match s with
  | c :: s1 =>
    if c = ',' ∨ c = ')' ∨ c = '(' then
      (eatLit ['o', 'r', '('] s1).bind (fun s2 =>
        lazyRun1 nonParen (fun g2 s3 =>
          (eatLit [squote, ',', squote] s3).bind (fun s4 =>
            lazyRun1 nonParen (fun g3 s5 =>
              (eatLit ['@', 's', ')'] s5).bind (fun s6 =>
                some (c :: ("or(".toList ++ g2 ++ ['@', 's', squote, ',', squote]
                             ++ g3 ++ ['@', 's', ')']), s6))) s4)) s2)
    else none
  | [] => none

/-- Whether x is a word character (for the \b boundaries); none stands for
an edge of the string. -/
def optWord : Option Char → Bool
  | some c => isWordChar c
  | none => false

/-- The character just before the end boundary of a \bX\b match: the last
character of X, or the character before the match when X is empty. -/
def elemLast (elem : List Char) (prev : Option Char) : Option Char :=
  match elem.reverse with
  | c :: _ => some c
  | [] => prev

/-- Does \b elem \b match at the current position (prev is the original
character immediately before the position)? -/
def wbMatchAt (elem : List Char) (prev : Option Char) (s : List Char) : Bool :=
  elem.isPrefixOf s
    && (optWord prev != optWord s.head?)
    && (optWord (elemLast elem prev) != optWord (s.drop elem.length).head?)

/-- re.search(r"\b<elem>\b", s).end(): the end offset of the first
word-bounded occurrence of the literal elem, or none. -/
def wbSearchAux (elem : List Char) : Option Char → List Char → Nat → Option Nat
  | prev, [], pos => if wbMatchAt elem prev [] then some (pos + elem.length) else none
  | prev, c :: rest, pos =>
    if wbMatchAt elem prev (c :: rest) then some (pos + elem.length)
    else wbSearchAux elem (some c) rest (pos + 1)

/-- re.search(r"\b<elem>\b", s).end() from the start of s. -/
def wbSearch (s elem : List Char) : Option Nat := wbSearchAux elem none s 0

/-- MRL.delete_first_n_occurences: drop everything up to and including the
first word-bounded occurrence of elem, n times; the except-branch (the
search returned no match, so m.end() raises and is caught) returns "". -/
def delete_first_n_occurences (s elem : List Char) : Nat → List Char
  | 0 => s
  | n + 1 =>
    match wbSearch s elem with
    | none => []
    | some e => delete_first_n_occurences (s.drop e) elem n

/-- The while loop of MRL.count_arguments: state (args_found, num_brackets,
num_commas), loop condition checked before each character, with the two
break conditions of the body.  Returns the final (args_found, num_commas). -/
def countArgumentsAux : List Char → Bool → Int → Nat → Bool × Nat
  | [], af, _, nc => (af, nc)
  | c :: rest, af, nb, nc =>
    if (af = false ∧ nb = 0) ∨ (af = true ∧ 0 < nb) then
      if c = '(' then countArgumentsAux rest true (nb + 1) nc
      else if c = ')' then countArgumentsAux rest af (nb - 1) nc
      else if nb = 1 ∧ c = ',' then countArgumentsAux rest af nb (nc + 1)
      else if nb < 1 ∧ c = ',' then (af, nc)
      else countArgumentsAux rest af nb nc
    else (af, nc)

/-- MRL.count_arguments.  The Python assert of the args_found = false
branch (num_commas == 0) is proved separately to never fail
(countArguments_assert below), so the embedding returns 0 there. -/
def count_arguments (s : List Char) : Nat :=
  let r := countArgumentsAux s false 0 0
  if r.1 then r.2 + 1 else 0

/-- s.replace("(", " ").replace(")", " ").replace(",", " ") of linearise. -/
def justWords (mrl : List Char) : List Char :=
  mrl.map (fun c => if c = '(' ∨ c = ')' ∨ c = ',' then ' ' else c)

/-- Python element.endswith("@s"). -/
def endsAtS (e : List Char) : Bool :=
  match e.reverse with
  | 's' :: '@' :: _ => true
  | _ => false

/-- The token loop of NLmaps.linearise: seen holds the already processed
tokens, so that (e :: seen).count e is the value of the per-token
occurrence counter after its increment. -/
def lineariseTokens (mrl : List Char) : List (List Char) → List (List Char) → List (List Char)
  | [], _ => []
  | e :: rest, seen =>
    let seen2 := e :: seen
    if endsAtS e then e :: lineariseTokens mrl rest seen2
    else
      let shortened := delete_first_n_occurences mrl e (seen2.count e)
      let args := count_arguments shortened
      (e ++ '@' :: (Nat.repr args).toList) :: lineariseTokens mrl rest seen2

/-- NLmaps.linearise. -/
def linearise (mrl : List Char) : String :=
  (List.intercalate [' ']
    (lineariseTokens mrl (pySplitList (pyStrip (collapseWs (justWords mrl)))) [])).asString

/-- NLmaps.preprocess_mrl: the escape-regex chain followed by linearise. -/
def preprocess_mrl (mrl : String) : String :=
  let s := gsub matchStep1 mrl.toList
  let s := gsub matchStep2 s
  let s := gsub matchStep3 s
  let s := s.map (fun c => if c = ' ' then euro else c)
  let s := saveApoAux none s
  let s := gsub matchStep6 s
  let s := gsub matchStep7 s
  let s := gsub matchStep8 s
  let s := collapseWs s
  let s := s.filter (fun c => c != squote)
  let s := pyStrip s
  linearise s

/-- The inner j loop of NLmaps.insert_pass_through_words for one element:
at every j with element == stemmed j, lin i is overwritten with
non_stemmed j followed by @s (the running value cur is the current
lin i). -/
def passThroughScan (element : String) : List (String × String) → String → String
  | [], cur => cur
  | p :: rest, cur =>
    passThroughScan element rest (if element = p.2 then p.1 ++ "@s" else cur)

/-- NLmaps.insert_pass_through_words. -/
def insert_pass_through_words (lin : List String) (non_stemmed stemmed : String) :
    List String :=
  let ns := pySplit non_stemmed
  let st := pySplit stemmed
  if ns.length ≠ st.length then lin
  else
    lin.map (fun element =>
      if element.toList.contains '@' then element
      else passThroughScan element (ns.zip st) element)

/-- Outcome of processing one atom in NLmaps.transform_if_tree: an uncaught
exception (the two-variable unpacking of rsplit), the empty-string failure
return, or the next loop state (stack, output, prev). -/
inductive TifStep : Type where
  | exc : TifStep
  | failed : TifStep
  | next : List Int → List String → String → TifStep
  deriving DecidableEq

/-- The value-quoting trigger: prev == "keyval" or prev == "findkey". -/
def tifTrigger (prev : String) : Bool := prev == "keyval" || prev == "findkey"

/-- "'%s'" % e. -/
def quoteStr (e : String) : String := "'" ++ e ++ "'"

/-- The stack-closing while loop of transform_if_tree: pop; if the top is
greater than 1 emit a comma, push top-1 back and stop, else emit a closing
parenthesis and continue. -/
def closeArity : List Int → List String → List Int × List String
  | [], mrl => ([], mrl)
  | top :: rest, mrl =>
    if 1 < top then ((top - 1) :: rest, mrl ++ [","])
    else closeArity rest (mrl ++ [")"])

/-- The arity <= 0 branch of transform_if_tree (sFound is arity_s_found):
reject a string leaf on an empty stack; quote when sFound or the trigger
holds, decoding the space sentinel first; emit; close completed ancestors.
prev becomes the emitted (possibly quoted) element, as in the source. -/
def tifZero (stack : List Int) (mrl : List String) (prev element : String)
    (sFound : Bool) : TifStep :=
  if sFound = true ∧ stack = [] then .failed
  else
    let e := if sFound = true ∨ tifTrigger prev = true then
               quoteStr (pyReplace element "€" " ")
             else element
    let sm := closeArity stack (mrl ++ [e])
    .next sm.1 sm.2 e

/-- One iteration of the atom loop of transform_if_tree.  An atom with no
'@' fails; an atom with two or more '@' raises ValueError in the
two-variable unpacking of rsplit("@") (exc); otherwise the atom splits at
its '@' into body and suffix, the suffix "s" marks a string leaf, any
other suffix must parse as a Python int. -/
def transform_step (stack : List Int) (mrl : List String) (prev : String)
    (atom : String) : TifStep :=
  if atom.toList.count '@' = 0 then .failed
  else if atom.toList.count '@' ≠ 1 then .exc
  else
    let pr := rsplitOnce atom.toList '@'
    let element := pr.1.asString
    let suffix := pr.2.asString
    if suffix = "s" then tifZero stack mrl prev element true
    else
      match pyParseInt suffix with
      | none => .failed
      | some arity =>
        if 0 < arity then .next (arity :: stack) (mrl ++ [element, "("]) element
        else tifZero stack mrl prev element false

/-- The atom loop of transform_if_tree with its final stack check. -/
def transform_loop : List String → List Int → List String → String → Option String
  | [], stack, mrl, _ => if stack = [] then some (pyJoin mrl) else some ""
  | atom :: rest, stack, mrl, prev =>
    match transform_step stack mrl prev atom with
    | .exc => none
    | .failed => some ""
    | .next stack2 mrl2 prev2 => transform_loop rest stack2 mrl2 prev2

/-- NLmaps.transform_if_tree. -/
def transform_if_tree (lin : List String) : Option String :=
  transform_loop lin [] [] ""

/-- NLmaps.functionalise after its initial topx substitutions and split:
reconstruction, the empty-result check, and sentinel decoding.  The
defaulted arguments (no pass-through streams, no CFG check, no
insert_missing_at) follow the default call path of the source. -/
def functionaliseTail (atoms : List String) : Option String :=
  match transform_if_tree atoms with
  | none => none
  | some mrl =>
    if mrl = "" then some ""
    else
      some (pyReplace (pyReplace (pyReplace (pyReplace mrl
              "SAVEAPO" "'") "BRACKETOPEN" "(") "BRACKETCLOSE" ")") "SAVECOMMA" ",")

/-- NLmaps.functionalise on the default call path. -/
def functionalise (lin : String) : Option String :=
  functionaliseTail (pySplit (pyReplace (pyReplace lin "<topx>" "") "</topx>" "@0"))

/-- Python needle in haystack: substring containment on character lists. -/
def containsSub (needle : List Char) : List Char → Bool
  | [] => needle.isEmpty
  | c :: rest => needle.isPrefixOf (c :: rest) || containsSub needle rest

/-- Python "Warning::Issue in line" in hyp. -/
def warnHit (hyp : String) : Bool :=
  containsSub "Warning::Issue in line".toList hyp.toList

/-- One iteration of the evaluate loop of src/eval.py: the counters
(tp, empty, fp) and the appended significance triple. -/
def evalStep (acc : (Nat × Nat × Nat) × List String) (hg : String × String) :
    (Nat × Nat × Nat) × List String :=
  if hg.1 = hg.2 then ((acc.1.1 + 1, acc.1.2.1, acc.1.2.2), acc.2 ++ ["1 1 1"])
  else if hg.1 = "empty" ∨ hg.1 = "" ∨ warnHit hg.1 = true then
    ((acc.1.1, acc.1.2.1 + 1, acc.1.2.2), acc.2 ++ ["0 0 1"])
  else ((acc.1.1, acc.1.2.1, acc.1.2.2 + 1), acc.2 ++ ["0 1 1"])

/-- The sigf list produced by evaluate(hypos, golds) of src/eval.py (the
floating-point summary line is not part of any claim and is omitted). -/
def evaluate_sigf (hypos golds : List String) : List String :=
  ((hypos.zip golds).foldl evalStep ((0, 0, 0), [])).2

/-- The per-line triple as a function of one hypothesis/gold pair,
following the branch structure of the evaluate loop. -/
def sigLine (hyp gold : String) : String :=
  if hyp = gold then "1 1 1"
  else if hyp = "empty" ∨ hyp = "" ∨ warnHit hyp = true then "0 0 1"
  else "0 1 1"

/-- Modelled from the words of claim C3: scan left to right tracking
parenthesis depth; count commas seen at depth exactly 1; stop at a comma
seen before any opening parenthesis (yielding 0), or when after entering
an opening parenthesis the depth returns to 0; at the end, commas + 1 if
an opening parenthesis was entered, else 0. -/
def claimArityAux : List Char → Bool → Int → Nat → Nat
  | [], entered, _, commas => if entered then commas + 1 else 0
  | c :: rest, entered, depth, commas =>
    if c = ',' ∧ entered = false then 0
    else if (entered || (c == '(')) = true
            ∧ (if c = '(' then depth + 1 else if c = ')' then depth - 1 else depth) = 0 then
      (if c = ',' ∧ depth = 1 then commas + 1 else commas) + 1
    else
      claimArityAux rest (entered || (c == '('))
        (if c = '(' then depth + 1 else if c = ')' then depth - 1 else depth)
        (if c = ',' ∧ depth = 1 then commas + 1 else commas)

/-- The arity analyzer exactly as claim C3 describes it. -/
def claimArity (s : List Char) : Nat := claimArityAux s false 0 0

/-- The amended description of count_arguments: as claimArity, but the
scan also stops (yielding 0) at a closing parenthesis seen before any
opening parenthesis. -/
def claimArityAmendedAux : List Char → Bool → Int → Nat → Nat
  | [], entered, _, commas => if entered then commas + 1 else 0
  | c :: rest, entered, depth, commas =>
    if c = ',' ∧ entered = false then 0
    else if c = ')' ∧ entered = false then 0
    else if (entered || (c == '(')) = true
            ∧ (if c = '(' then depth + 1 else if c = ')' then depth - 1 else depth) = 0 then
      (if c = ',' ∧ depth = 1 then commas + 1 else commas) + 1
    else
      claimArityAmendedAux rest (entered || (c == '('))
        (if c = '(' then depth + 1 else if c = ')' then depth - 1 else depth)
        (if c = ',' ∧ depth = 1 then commas + 1 else commas)

/-- The amended claim-C3 arity analyzer. -/
def claimArityAmended (s : List Char) : Nat := claimArityAmendedAux s false 0 0

/-- The index of the LAST element of the list equal to e, if any
(claim C5's alignment rule). -/
def lastEqIdx (e : String) : List String → Option Nat
  | [] => none
  | x :: xs =>
    match lastEqIdx e xs with
    | some j => some (j + 1)
    | none => if x = e then some 0 else none

/-- Modelled from the words of claim C4: as tifZero, except that the
look-back slot records the bare body instead of the emitted form. -/
def tifZeroClaim (stack : List Int) (mrl : List String) (prev element : String)
    (sFound : Bool) : TifStep :=
  if sFound = true ∧ stack = [] then .failed
  else
    let e := if sFound = true ∨ tifTrigger prev = true then
               quoteStr (pyReplace element "€" " ")
             else element
    let sm := closeArity stack (mrl ++ [e])
    .next sm.1 sm.2 element

/-- transform_step under claim C4's reading of the look-back slot. -/
def transform_step_claim (stack : List Int) (mrl : List String) (prev : String)
    (atom : String) : TifStep :=
  if atom.toList.count '@' = 0 then .failed
  else if atom.toList.count '@' ≠ 1 then .exc
  else
    let pr := rsplitOnce atom.toList '@'
    let element := pr.1.asString
    let suffix := pr.2.asString
    if suffix = "s" then tifZeroClaim stack mrl prev element true
    else
      match pyParseInt suffix with
      | none => .failed
      | some arity =>
        if 0 < arity then .next (arity :: stack) (mrl ++ [element, "("]) element
        else tifZeroClaim stack mrl prev element false

/-- The atom loop under claim C4's reading of the look-back slot. -/
def transform_loop_claim : List String → List Int → List String → String → Option String
  | [], stack, mrl, _ => if stack = [] then some (pyJoin mrl) else some ""
  | atom :: rest, stack, mrl, prev =>
    match transform_step_claim stack mrl prev atom with
    | .exc => none
    | .failed => some ""
    | .next stack2 mrl2 prev2 => transform_loop_claim rest stack2 mrl2 prev2

/-- transform_if_tree under claim C4's reading of the look-back slot. -/
def transform_if_tree_claim (lin : List String) : Option String :=
  transform_loop_claim lin [] [] ""

/-- C1: the round-trip functionalise(preprocess_mrl(Q)) = Q fails on the
valid surface query Q = query(nwr(keyval('cuisine','a,b,c')),qtype(count)):
the SAVECOMMA pattern consumes through the leaf's closing quote, so only
the first comma of the two-comma value is protected and the reconstruction
returns query(nwr(keyval('cuisine',a,b,'c')),qtype(count)) instead of Q. -/
theorem c1_roundtrip_code_bug :
    preprocess_mrl "query(nwr(keyval('cuisine','a,b,c')),qtype(count))"
        = "query@2 nwr@1 keyval@3 cuisine@0 aSAVECOMMAb@0 c@s qtype@1 count@0"
      ∧ functionalise (preprocess_mrl "query(nwr(keyval('cuisine','a,b,c')),qtype(count))")
        = some "query(nwr(keyval('cuisine',a,b,'c')),qtype(count))"
      ∧ "query(nwr(keyval('cuisine',a,b,'c')),qtype(count))"
        ≠ "query(nwr(keyval('cuisine','a,b,c')),qtype(count))" := by
  exact ⟨by decide, by decide, by decide⟩

/-- C2 counterexample: the reconstructor does not return the empty string
in three of the claimed cases.  A second bare arity-0 atom after the root
is complete yields "ab"; a negative suffix parses via int() and yields
"a"; and a form containing a no-'@' atom after an atom with two '@'s
raises (none), rather than returning the empty string. -/
theorem c2_counterexample :
    transform_if_tree ["a@0", "b@0"] = some "ab"
      ∧ transform_if_tree ["a@-1"] = some "a"
      ∧ transform_if_tree ["a@1@2", "b"] = none := by
  exact ⟨by decide, by decide, by decide⟩

/-- C3 counterexample: on the string ")(", the scan described by the claim
enters an opening parenthesis (after which the depth is 0) and so yields
commas + 1 = 1, but count_arguments exits its loop as soon as the depth
goes negative before any opening parenthesis and returns 0. -/
theorem c3_counterexample :
    count_arguments [')', '('] = 0 ∧ claimArity [')', '('] = 1 := by
  exact ⟨by decide, by decide⟩

/-- C4 counterexample: after the string leaf keyval@s is emitted, the
look-back slot holds the quoted form 'keyval' and not the bare body
keyval, so the following x@0 is NOT quoted; under the claim's reading of
the look-back slot it would be quoted. -/
theorem c4_counterexample :
    transform_if_tree ["f@2", "keyval@s", "x@0"] = some "f('keyval',x)"
      ∧ transform_if_tree_claim ["f@2", "keyval@s", "x@0"] = some "f('keyval','x')"
      ∧ transform_step [1] ["f", "(", "'keyval'", ","] "f" "keyval@s"
          = TifStep.next [] ["f", "(", "'keyval'", ",", "'keyval'", ")"] "'keyval'"
      ∧ ("'keyval'" : String) ≠ "keyval" := by
  exact ⟨by decide, by decide, by decide, by decide⟩

/-- C10 counterexample: a sequence of bare arity-0 atoms with no enclosing
functor is indeed accepted, but the output is not always the concatenation
of the bodies: a body equal to keyval makes the next body quoted, and a
sequence of empty bodies yields the empty string. -/
theorem c10_counterexample :
    transform_if_tree ["keyval@0", "x@0"] = some "keyval'x'"
      ∧ ("keyval'x'" : String) ≠ "keyvalx"
      ∧ transform_if_tree ["@0", "@0"] = some "" := by
  exact ⟨by decide, by decide, by decide⟩

/-- C9: functionalise unconditionally deletes every occurrence of <topx>
and replaces every occurrence of </topx> by @0 before splitting the linear
form at spaces; in particular a stream containing <topx>1</topx> is
reconstructed exactly as if it contained 1@0. -/
theorem c9_topx_preprocessing :
    (∀ s : String, functionalise s
        = functionaliseTail (pySplit (pyReplace (pyReplace s "<topx>" "") "</topx>" "@0")))
      ∧ functionalise "query@1 <topx>1</topx>" = some "query(1)"
      ∧ functionalise "query@1 1@0" = some "query(1)" := by
  exact ⟨fun s => rfl, by decide, by decide⟩

/-- C6: when the two stem streams split at spaces into different numbers
of tokens, insert_pass_through_words returns its input list unchanged
(and, being a total function, raises nothing). -/
theorem c6_alignment_noop (lin : List String) (non_stemmed stemmed : String)
    (h : (pySplit non_stemmed).length ≠ (pySplit stemmed).length) :
    insert_pass_through_words lin non_stemmed stemmed = lin := by
  unfold insert_pass_through_words
  simp only [if_pos h]

/-- Witness for c6_alignment_noop at a mis-aligned concrete pair. -/
theorem c6_witness :
    (pySplit "a b").length ≠ (pySplit "a").length
      ∧ insert_pass_through_words ["pari", "x@s"] "a b" "a" = ["pari", "x@s"] :=
  ⟨by decide, c6_alignment_noop ["pari", "x@s"] "a b" "a" (by decide)⟩

/-- toList distributes over String append. -/
theorem toList_append (s t : String) : (s ++ t).toList = s.toList ++ t.toList := by
  cases s; cases t; rfl

/-- A string with an empty character list is the empty string. -/
theorem str_empty_of_toList (s : String) (h : s.toList = []) : s = "" := by
  cases s; simp [String.toList] at h; simp [h]

/-- The inner loop of the pass-through inserter keeps the non-stemmed
token of the LAST stemmed match, and otherwise the running value. -/
theorem passThroughScan_eq (e : String) :
    ∀ (st ns : List String) (cur : String), ns.length = st.length →
      passThroughScan e (ns.zip st) cur
        = (match lastEqIdx e st with
           | none => cur
           | some j => ns.getD j "" ++ "@s") := by
  intro st
  induction st with
  | nil =>
    intro ns cur h
    cases ns with
    | nil => simp [passThroughScan, lastEqIdx]
    | cons n ns2 => simp at h
  | cons s st2 ih =>
    intro ns cur h
    cases ns with
    | nil => simp at h
    | cons n ns2 =>
      simp only [List.length_cons, Nat.add_right_cancel_iff] at h
      rw [show (n :: ns2).zip (s :: st2) = (n, s) :: ns2.zip st2 from rfl]
      rw [show passThroughScan e ((n, s) :: ns2.zip st2) cur
            = passThroughScan e (ns2.zip st2) (if e = s then n ++ "@s" else cur) from rfl]
      rw [ih ns2 _ h]
      cases hl : lastEqIdx e st2 with
      | some j => simp [lastEqIdx, hl]
      | none =>
        by_cases he : s = e
        · subst he
          simp [lastEqIdx, hl]
        · have he2 : ¬(e = s) := fun hx => he hx.symm
          simp [lastEqIdx, hl, he, he2]

/-- C5: with aligned stem streams, every atom of the linearised list that
contains no '@' and equals some stemmed token becomes the non-stemmed
token at the index of the LAST equal stemmed token, suffixed by @s; every
other atom is returned unchanged. -/
theorem c5_pass_through (lin : List String) (non_stemmed stemmed : String)
    (h : (pySplit non_stemmed).length = (pySplit stemmed).length) :
    insert_pass_through_words lin non_stemmed stemmed
      = lin.map (fun e =>
          if e.toList.contains '@' then e
          else
            match lastEqIdx e (pySplit stemmed) with
            | none => e
            | some j => (pySplit non_stemmed).getD j "" ++ "@s") := by
  unfold insert_pass_through_words
  rw [if_neg (not_not_intro h)]
  refine List.map_congr_left ?_
  intro e _
  by_cases hc : e.toList.contains '@' = true
  · rw [if_pos hc, if_pos hc]
  · rw [if_neg hc, if_neg hc]
    exact passThroughScan_eq e (pySplit stemmed) (pySplit non_stemmed) e h

/-- Witness for c5_pass_through: the repository's own pass-through test
pair, on a list with one bare atom and one annotated atom. -/
theorem c5_witness :
    (pySplit "noise noise Paris noise").length = (pySplit "noise noise pari noise").length
      ∧ insert_pass_through_words ["keyval@2", "pari"] "noise noise Paris noise"
          "noise noise pari noise"
        = ["keyval@2", "pari"].map (fun e =>
            if e.toList.contains '@' then e
            else
              match lastEqIdx e (pySplit "noise noise pari noise") with
              | none => e
              | some j => (pySplit "noise noise Paris noise").getD j "" ++ "@s") :=
  ⟨by decide,
   c5_pass_through ["keyval@2", "pari"] "noise noise Paris noise" "noise noise pari noise"
     (by decide)⟩

/-- If the loop condition of count_arguments fails at entry, the loop
returns its state unchanged. -/
theorem countArgumentsAux_stuck (s : List Char) (af : Bool) (nb : Int) (nc : Nat)
    (h : ¬((af = false ∧ nb = 0) ∨ (af = true ∧ 0 < nb))) :
    countArgumentsAux s af nb nc = (af, nc) := by
  cases s with
  | nil => rfl
  | cons c rest =>
    simp only [countArgumentsAux]
    rw [if_neg h]

/-- The assert num_commas == 0 of count_arguments can never fail: commas
are only counted at bracket depth 1, which requires an opening parenthesis
to have set args_found. -/
theorem countArguments_assert :
    ∀ (s : List Char) (af : Bool) (nb : Int) (nc : Nat),
      (af = false → nc = 0) →
      (countArgumentsAux s af nb nc).1 = false → (countArgumentsAux s af nb nc).2 = 0 := by
  intro s
  induction s with
  | nil =>
    intro af nb nc hpre hf
    simp only [countArgumentsAux] at hf ⊢
    exact hpre hf
  | cons c rest ih =>
    intro af nb nc hpre
    simp only [countArgumentsAux]
    by_cases hcond : (af = false ∧ nb = 0) ∨ (af = true ∧ 0 < nb)
    · rw [if_pos hcond]
      by_cases h1 : c = '('
      · rw [if_pos h1]
        exact ih true (nb + 1) nc (by simp)
      · rw [if_neg h1]
        by_cases h2 : c = ')'
        · rw [if_pos h2]
          exact ih af (nb - 1) nc hpre
        · rw [if_neg h2]
          by_cases h3 : nb = 1 ∧ c = ','
          · rw [if_pos h3]
            have haf : af = true := by
              rcases hcond with ⟨haf0, hnb0⟩ | ⟨haf1, _⟩
              · exfalso; rw [hnb0] at h3; exact absurd h3.1 (by norm_num)
              · exact haf1
            refine ih af nb (nc + 1) ?_
            intro hff
            rw [haf] at hff
            cases hff
          · rw [if_neg h3]
            by_cases h4 : nb < 1 ∧ c = ','
            · rw [if_pos h4]
              exact hpre
            · rw [if_neg h4]
              exact ih af nb nc hpre
    · rw [if_neg hcond]
      exact hpre

/-- C7: the encode direction is total.  In the embedding every function is
total by construction; the two specific hazards named by the claim are
settled here: the assert of count_arguments never fails (when args_found
is false, num_commas is 0), and delete_first_n_occurences returns the
empty string via its except branch whenever the word-bounded search finds
nothing (instead of propagating the exception of m.end()). -/
theorem c7_totality :
    (∀ s : List Char,
        (countArgumentsAux s false 0 0).1 = false → (countArgumentsAux s false 0 0).2 = 0)
      ∧ (∀ (s e : List Char) (n : Nat), 0 < n → wbSearch s e = none →
          delete_first_n_occurences s e n = []) := by
  constructor
  · intro s
    exact countArguments_assert s false 0 0 (fun _ => rfl)
  · intro s e n hn hsearch
    cases n with
    | zero => omega
    | succ m => simp [delete_first_n_occurences, hsearch]

/-- Witness for c7_totality at concrete inputs: a one-character string
whose scan never sets args_found, and a search for an absent element. -/
theorem c7_witness :
    (countArgumentsAux ['x'] false 0 0).2 = 0
      ∧ delete_first_n_occurences ['x'] ['q'] 1 = [] :=
  ⟨c7_totality.1 ['x'] (by decide), c7_totality.2 ['x'] ['q'] 1 (by decide) (by decide)⟩

/-- The sigf accumulator of evaluate appends exactly one triple per
hypothesis/gold pair, the triple being sigLine of the pair. -/
theorem evalStep_sigf (l : List (String × String)) :
    ∀ acc : (Nat × Nat × Nat) × List String,
      (l.foldl evalStep acc).2 = acc.2 ++ l.map (fun p => sigLine p.1 p.2) := by
  induction l with
  | nil => intro acc; simp
  | cons p rest ih =>
    intro acc
    simp only [List.foldl_cons, List.map_cons]
    rw [ih]
    unfold evalStep sigLine
    split_ifs <;> simp

/-- C8: every per-line triple emitted by evaluate is one of "1 1 1",
"0 0 1", "0 1 1"; it is "1 1 1" iff the hypothesis equals the gold,
"0 0 1" iff they differ and the hypothesis is "empty", the empty string,
or contains "Warning::Issue in line", and "0 1 1" otherwise. -/
theorem c8_eval_triples :
    (∀ hypos golds : List String,
        evaluate_sigf hypos golds = (hypos.zip golds).map (fun p => sigLine p.1 p.2))
      ∧ (∀ hyp gold : String,
          (sigLine hyp gold = "1 1 1" ∨ sigLine hyp gold = "0 0 1"
              ∨ sigLine hyp gold = "0 1 1")
          ∧ (sigLine hyp gold = "1 1 1" ↔ hyp = gold)
          ∧ (sigLine hyp gold = "0 0 1"
              ↔ hyp ≠ gold ∧ (hyp = "empty" ∨ hyp = "" ∨ warnHit hyp = true))
          ∧ (sigLine hyp gold = "0 1 1"
              ↔ hyp ≠ gold ∧ ¬(hyp = "empty" ∨ hyp = "" ∨ warnHit hyp = true))) := by
  constructor
  · intro hypos golds
    unfold evaluate_sigf
    rw [evalStep_sigf]
    simp
  · intro hyp gold
    unfold sigLine
    split_ifs with h1 h2
    · refine ⟨Or.inl rfl, ⟨fun _ => h1, fun _ => rfl⟩, ?_, ?_⟩
      · constructor
        · intro hx; exact absurd hx (by decide)
        · rintro ⟨hne, -⟩; exact absurd h1 hne
      · constructor
        · intro hx; exact absurd hx (by decide)
        · rintro ⟨hne, -⟩; exact absurd h1 hne
    · refine ⟨Or.inr (Or.inl rfl), ?_, ⟨fun _ => ⟨h1, h2⟩, fun _ => rfl⟩, ?_⟩
      · constructor
        · intro hx; exact absurd hx (by decide)
        · intro hx; exact absurd hx h1
      · constructor
        · intro hx; exact absurd hx (by decide)
        · rintro ⟨-, hbad⟩; exact absurd h2 hbad
    · refine ⟨Or.inr (Or.inr rfl), ?_, ?_, ⟨fun _ => ⟨h1, h2⟩, fun _ => rfl⟩⟩
      · constructor
        · intro hx; exact absurd hx (by decide)
        · intro hx; exact absurd hx h1
      · constructor
        · intro hx; exact absurd hx (by decide)
        · rintro ⟨-, hbad⟩; exact absurd hbad h2

/-- An atom with no '@', or whose single-'@' non-s suffix fails Python's
int(), makes transform_if_tree's loop body return the failure marker. -/
theorem transform_step_bad (stack : List Int) (mrl : List String) (prev a : String)
    (hbad : a.toList.count '@' = 0
      ∨ (a.toList.count '@' = 1 ∧ (rsplitOnce a.toList '@').2.asString ≠ "s"
          ∧ pyParseInt (rsplitOnce a.toList '@').2.asString = none)) :
    transform_step stack mrl prev a = TifStep.failed := by
  unfold transform_step
  rcases hbad with h0 | ⟨h1, hs, hp⟩
  · rw [if_pos h0]
  · rw [if_neg (by omega), if_neg (not_not_intro h1)]
    have hs2 : (rsplitOnce a.data '@').2.asString ≠ "s" := hs
    have hp2 : pyParseInt (rsplitOnce a.data '@').2.asString = none := hp
    simp [hs2, hp2]

/-- A linear form containing such a bad atom can never reconstruct: the
loop either raises earlier (none) or returns the empty string. -/
theorem transform_loop_bad :
    ∀ (lin : List String) (stack : List Int) (mrl : List String) (prev : String),
      (∃ a ∈ lin, a.toList.count '@' = 0
         ∨ (a.toList.count '@' = 1 ∧ (rsplitOnce a.toList '@').2.asString ≠ "s"
             ∧ pyParseInt (rsplitOnce a.toList '@').2.asString = none)) →
      transform_loop lin stack mrl prev = none ∨ transform_loop lin stack mrl prev = some "" := by
  intro lin
  induction lin with
  | nil =>
    rintro stack mrl prev ⟨a, ha, -⟩
    exact absurd ha (List.not_mem_nil a)
  | cons x rest ih =>
    rintro stack mrl prev ⟨a, ha, hbad⟩
    rcases List.mem_cons.mp ha with rfl | hmem
    · right
      simp only [transform_loop, transform_step_bad stack mrl prev a hbad]
    · simp only [transform_loop]
      cases hstep : transform_step stack mrl prev x with
      | exc => left; rfl
      | failed => right; rfl
      | next stack2 mrl2 prev2 => exact ih stack2 mrl2 prev2 ⟨a, hmem, hbad⟩

/-- C2 (amended): the reconstructor rejects (empty string, or an earlier
exception) every linear form containing an atom with no '@'; likewise for
an atom whose single-'@' non-'s' suffix fails Python's int() (note a
negative suffix such as -1 parses and is NOT rejected); a string-leaf
('@s') atom reached while the arity stack is empty returns the empty
string at once; and a run that ends with a non-empty arity stack returns
the empty string.  A bare non-'s' atom after the root's subtree is
complete is not rejected (see c10_multi_root). -/
theorem c2_structural_rejection :
    (∀ lin : List String, (∃ a ∈ lin, a.toList.count '@' = 0) →
        transform_if_tree lin = none ∨ transform_if_tree lin = some "")
      ∧ (∀ lin : List String,
          (∃ a ∈ lin, a.toList.count '@' = 1
             ∧ (rsplitOnce a.toList '@').2.asString ≠ "s"
             ∧ pyParseInt (rsplitOnce a.toList '@').2.asString = none) →
          transform_if_tree lin = none ∨ transform_if_tree lin = some "")
      ∧ (∀ (atom : String) (rest mrl : List String) (prev : String),
          atom.toList.count '@' = 1 → (rsplitOnce atom.toList '@').2.asString = "s" →
          transform_loop (atom :: rest) [] mrl prev = some "")
      ∧ (∀ (stack : List Int) (mrl : List String) (prev : String), stack ≠ [] →
          transform_loop [] stack mrl prev = some "") := by
  refine ⟨?_, ?_, ?_, ?_⟩
  · rintro lin ⟨a, ha, h0⟩
    exact transform_loop_bad lin [] [] "" ⟨a, ha, Or.inl h0⟩
  · rintro lin ⟨a, ha, h1, hs, hp⟩
    exact transform_loop_bad lin [] [] "" ⟨a, ha, Or.inr ⟨h1, hs, hp⟩⟩
  · intro atom rest mrl prev h1 hs
    have hstep : transform_step [] mrl prev atom = TifStep.failed := by
      unfold transform_step
      rw [if_neg (by omega), if_neg (not_not_intro h1)]
      simp only [hs, if_pos]
      unfold tifZero
      rw [if_pos ⟨rfl, rfl⟩]
    simp only [transform_loop, hstep]
  · intro stack mrl prev h
    simp only [transform_loop]
    rw [if_neg h]

/-- Witness for c2_structural_rejection at concrete inputs: an atom with
no '@', an atom with suffix x, a string leaf on the empty stack, and a
terminal non-empty stack. -/
theorem c2_witness :
    (transform_if_tree ["b"] = none ∨ transform_if_tree ["b"] = some "")
      ∧ (transform_if_tree ["a@x"] = none ∨ transform_if_tree ["a@x"] = some "")
      ∧ transform_loop ["y@s"] [] [] "" = some ""
      ∧ transform_loop [] [2] [] "" = some "" :=
  ⟨c2_structural_rejection.1 ["b"] ⟨"b", by decide, by decide⟩,
   c2_structural_rejection.2.1 ["a@x"] ⟨"a@x", by decide, by decide, by decide⟩,
   c2_structural_rejection.2.2.1 "y@s" [] [] "" (by decide) (by decide),
   c2_structural_rejection.2.2.2 [2] [] "" (by decide)⟩

/-- splitAtFirst finds the marked occurrence when it is the first one. -/
theorem splitAtFirst_not_mem (l r : List Char) (c : Char) (hl : c ∉ l) :
    splitAtFirst (l ++ c :: r) c = (l, r) := by
  induction l with
  | nil => simp [splitAtFirst]
  | cons x xs ih =>
    have hx : ¬ x = c := by rintro rfl; exact hl (List.mem_cons_self x xs)
    have ih2 := ih (fun hm => hl (List.mem_cons_of_mem x hm))
    simp [splitAtFirst, hx, ih2]

/-- rsplit at the last '@' of body ++ '@' :: suffix when the suffix has
no '@' of its own. -/
theorem rsplitOnce_append (bl suf : List Char) (hsuf : '@' ∉ suf) :
    rsplitOnce (bl ++ '@' :: suf) '@' = (bl, suf) := by
  unfold rsplitOnce
  rw [List.reverse_append, List.reverse_cons, List.append_assoc, List.singleton_append]
  rw [splitAtFirst_not_mem suf.reverse bl.reverse '@' (by simpa using hsuf)]
  simp

/-- Processing the atom b ++ "@s" (b free of '@') is the string-leaf
branch of the loop body. -/
theorem transform_step_appendS (stack : List Int) (mrl : List String) (prev b : String)
    (hb : b.toList.count '@' = 0) :
    transform_step stack mrl prev (b ++ "@s") = tifZero stack mrl prev b true := by
  have htl : (b ++ "@s").toList = b.toList ++ '@' :: ['s'] := by
    rw [toList_append]; rfl
  have hcount : (b ++ "@s").toList.count '@' = 1 := by
    rw [htl, List.count_append, hb]; decide
  have hsplit : rsplitOnce (b ++ "@s").toList '@' = (b.toList, ['s']) := by
    rw [htl]; exact rsplitOnce_append b.toList ['s'] (by decide)
  unfold transform_step
  rw [if_neg (by omega), if_neg (not_not_intro hcount)]
  simp only [hsplit]
  rw [if_pos (show (['s'] : List Char).asString = "s" from rfl)]
  rw [show (b.toList).asString = b from rfl]

/-- Processing the atom b ++ "@0" (b free of '@') is the arity-0 branch
of the loop body. -/
theorem transform_step_append0 (stack : List Int) (mrl : List String) (prev b : String)
    (hb : b.toList.count '@' = 0) :
    transform_step stack mrl prev (b ++ "@0") = tifZero stack mrl prev b false := by
  have htl : (b ++ "@0").toList = b.toList ++ '@' :: ['0'] := by
    rw [toList_append]; rfl
  have hcount : (b ++ "@0").toList.count '@' = 1 := by
    rw [htl, List.count_append, hb]; decide
  have hsplit : rsplitOnce (b ++ "@0").toList '@' = (b.toList, ['0']) := by
    rw [htl]; exact rsplitOnce_append b.toList ['0'] (by decide)
  unfold transform_step
  rw [if_neg (by omega), if_neg (not_not_intro hcount)]
  simp only [hsplit]
  rw [if_neg (show ¬(['0'] : List Char).asString = "s" from by decide)]
  rw [show pyParseInt (['0'] : List Char).asString = some 0 from by decide]
  rfl

/-- C4 (amended): an arity-0 atom's body is quoted (after decoding the €
space sentinel) iff its suffix is s or the look-back slot equals keyval or
findkey; and after every emitted arity-0 atom the look-back slot holds the
EMITTED form of the atom: the quoted form when quoting applied, the bare
body otherwise (the claim's "bare body" reading fails; see
c4_counterexample). -/
theorem c4_quoting_rule :
    (∀ (stack : List Int) (mrl : List String) (prev b : String),
        b.toList.count '@' = 0 →
        transform_step stack mrl prev (b ++ "@s")
          = if stack = [] then TifStep.failed
            else
              TifStep.next
                (closeArity stack (mrl ++ [quoteStr (pyReplace b "€" " ")])).1
                (closeArity stack (mrl ++ [quoteStr (pyReplace b "€" " ")])).2
                (quoteStr (pyReplace b "€" " ")))
      ∧ (∀ (stack : List Int) (mrl : List String) (prev b : String),
          b.toList.count '@' = 0 →
          transform_step stack mrl prev (b ++ "@0")
            = TifStep.next
                (closeArity stack
                  (mrl ++ [if tifTrigger prev = true then quoteStr (pyReplace b "€" " ") else b])).1
                (closeArity stack
                  (mrl ++ [if tifTrigger prev = true then quoteStr (pyReplace b "€" " ") else b])).2
                (if tifTrigger prev = true then quoteStr (pyReplace b "€" " ") else b)) := by
  constructor
  · intro stack mrl prev b hb
    rw [transform_step_appendS stack mrl prev b hb]
    unfold tifZero
    by_cases hstack : stack = []
    · rw [if_pos ⟨rfl, hstack⟩, if_pos hstack]
    · rw [if_neg (fun hx => hstack hx.2), if_neg hstack]
      simp
  · intro stack mrl prev b hb
    rw [transform_step_append0 stack mrl prev b hb]
    unfold tifZero
    rw [if_neg (fun hx => by cases hx.1)]
    by_cases ht : tifTrigger prev = true
    · simp [ht]
    · simp [ht]

/-- Witness for c4_quoting_rule: a string leaf under one open functor,
and an arity-0 atom after the functor keyval. -/
theorem c4_witness :
    ("x" : String).toList.count '@' = 0
      ∧ transform_step [2] [] "f" ("x" ++ "@s")
          = (if ([2] : List Int) = [] then TifStep.failed
             else
               TifStep.next
                 (closeArity [2] ([] ++ [quoteStr (pyReplace "x" "€" " ")])).1
                 (closeArity [2] ([] ++ [quoteStr (pyReplace "x" "€" " ")])).2
                 (quoteStr (pyReplace "x" "€" " ")))
      ∧ transform_step [] [] "keyval" ("x" ++ "@0")
          = TifStep.next
              (closeArity []
                ([] ++ [if tifTrigger "keyval" = true then quoteStr (pyReplace "x" "€" " ") else "x"])).1
              (closeArity []
                ([] ++ [if tifTrigger "keyval" = true then quoteStr (pyReplace "x" "€" " ") else "x"])).2
              (if tifTrigger "keyval" = true then quoteStr (pyReplace "x" "€" " ") else "x") :=
  ⟨by decide, c4_quoting_rule.1 [2] [] "f" "x" (by decide),
   c4_quoting_rule.2 [] [] "keyval" "x" (by decide)⟩

/-- A body different from keyval and findkey never triggers quoting. -/
theorem tifTrigger_false (b : String) (hk : b ≠ "keyval") (hf : b ≠ "findkey") :
    tifTrigger b = false := by
  unfold tifTrigger
  simp [hk, hf]

/-- Splitting a concatenation of strings into empties. -/
theorem append_eq_empty_str (s t : String) (h : s ++ t = "") : s = "" ∧ t = "" := by
  have hd : s.toList ++ t.toList = [] := by
    rw [← toList_append, h]; rfl
  have h2 := List.append_eq_nil.mp hd
  exact ⟨str_empty_of_toList s h2.1, str_empty_of_toList t h2.2⟩

/-- The join of a list with a non-empty member is non-empty. -/
theorem pyJoin_ne_empty :
    ∀ (bs : List String) (b : String), b ∈ bs → b ≠ "" → pyJoin bs ≠ "" := by
  intro bs
  induction bs with
  | nil =>
    intro b h
    exact absurd h (List.not_mem_nil b)
  | cons x rest ih =>
    intro b hmem hne hjoin
    have hx := append_eq_empty_str x (pyJoin rest) (by simpa [pyJoin] using hjoin)
    rcases List.mem_cons.mp hmem with rfl | hmem2
    · exact hne hx.1
    · exact ih b hmem2 hne hx.2

/-- A run of bare arity-0 atoms on an empty stack appends each body and
keeps the stack empty, producing the concatenation of the bodies. -/
theorem transform_loop_bare :
    ∀ (bs mrl : List String) (prev : String),
      (∀ b ∈ bs, b.toList.count '@' = 0 ∧ b ≠ "keyval" ∧ b ≠ "findkey") →
      tifTrigger prev = false →
      transform_loop (bs.map (fun b => b ++ "@0")) [] mrl prev = some (pyJoin (mrl ++ bs)) := by
  intro bs
  induction bs with
  | nil =>
    intro mrl prev _ _
    simp [transform_loop]
  | cons b rest ih =>
    intro mrl prev hok hprev
    obtain ⟨hb, hk, hf⟩ := hok b (List.mem_cons_self b rest)
    have hstep : transform_step [] mrl prev (b ++ "@0") = TifStep.next [] (mrl ++ [b]) b := by
      rw [transform_step_append0 [] mrl prev b hb]
      unfold tifZero
      rw [if_neg (fun hx => by cases hx.1)]
      simp [hprev, closeArity]
    simp only [List.map_cons, transform_loop, hstep]
    rw [ih (mrl ++ [b]) b (fun x hx => hok x (List.mem_cons_of_mem b hx))
          (tifTrigger_false b hk hf)]
    simp [List.append_assoc]

/-- C10 (amended): every sequence of two or more arity-0 atoms b@0 whose
bodies contain no '@' and are none of the quote-triggering functors keyval
and findkey reconstructs to the concatenation of the bodies — non-empty
as soon as one body is non-empty — rather than the empty string; only a
surplus string leaf on an empty stack is rejected (c2_structural_rejection),
not a surplus bare @0 atom. -/
theorem c10_multi_root (bs : List String) (_hlen : 2 ≤ bs.length)
    (hok : ∀ b ∈ bs, b.toList.count '@' = 0 ∧ b ≠ "keyval" ∧ b ≠ "findkey") :
    transform_if_tree (bs.map (fun b => b ++ "@0")) = some (pyJoin bs)
      ∧ ((∃ b ∈ bs, b ≠ "") → pyJoin bs ≠ "") := by
  constructor
  · have h := transform_loop_bare bs [] "" hok (by decide)
    simpa [transform_if_tree] using h
  · rintro ⟨b, hmem, hne⟩
    exact pyJoin_ne_empty bs b hmem hne

/-- Witness for c10_multi_root at the two-atom sequence a@0 b@0. -/
theorem c10_witness :
    transform_if_tree (["a", "b"].map (fun b => b ++ "@0")) = some (pyJoin ["a", "b"])
      ∧ pyJoin ["a", "b"] ≠ "" :=
  ⟨(c10_multi_root ["a", "b"] (by decide) (by decide)).1,
   (c10_multi_root ["a", "b"] (by decide) (by decide)).2 ⟨"a", by decide, by decide⟩⟩

/-- count_arguments equals the amended claim-C3 scan on every loop state
the function can actually be in (args_found false with depth 0, or
args_found true with positive depth). -/
theorem countArguments_eq_claim :
    ∀ (s : List Char) (af : Bool) (nb : Int) (nc : Nat),
      ((af = false ∧ nb = 0) ∨ (af = true ∧ 0 < nb)) →
      (if (countArgumentsAux s af nb nc).1 then (countArgumentsAux s af nb nc).2 + 1 else 0)
        = claimArityAmendedAux s af nb nc := by
  intro s
  induction s with
  | nil =>
    intro af nb nc _
    simp only [countArgumentsAux, claimArityAmendedAux]
  | cons c rest ih =>
    intro af nb nc hinv
    rcases hinv with ⟨haf, hnb0⟩ | ⟨haf, hpos⟩
    · subst haf
      subst hnb0
      by_cases h1 : c = '('
      · subst h1
        have hcode : countArgumentsAux ('(' :: rest) false 0 nc
            = countArgumentsAux rest true 1 nc := by
          simp [countArgumentsAux]
        have hclaim : claimArityAmendedAux ('(' :: rest) false 0 nc
            = claimArityAmendedAux rest true 1 nc := by
          simp [claimArityAmendedAux]
        rw [hcode, hclaim]
        exact ih true 1 nc (Or.inr ⟨rfl, by omega⟩)
      · by_cases h2 : c = ')'
        · subst h2
          have hstuck : countArgumentsAux rest false (-1) nc = (false, nc) :=
            countArgumentsAux_stuck rest false (-1) nc
              (by rintro (⟨-, h⟩ | ⟨h, -⟩)
                  · omega
                  · simp at h)
          have hcode : countArgumentsAux (')' :: rest) false 0 nc = (false, nc) := by
            simp [countArgumentsAux, hstuck]
          have hclaim : claimArityAmendedAux (')' :: rest) false 0 nc = 0 := by
            simp [claimArityAmendedAux]
          rw [hcode, hclaim]
          simp
        · by_cases h3 : c = ','
          · subst h3
            have hcode : countArgumentsAux (',' :: rest) false 0 nc = (false, nc) := by
              simp [countArgumentsAux]
            have hclaim : claimArityAmendedAux (',' :: rest) false 0 nc = 0 := by
              simp [claimArityAmendedAux]
            rw [hcode, hclaim]
            simp
          · have hbeq : (c == '(') = false := beq_eq_false_iff_ne.mpr h1
            have hcode : countArgumentsAux (c :: rest) false 0 nc
                = countArgumentsAux rest false 0 nc := by
              simp [countArgumentsAux, h1, h2, h3]
            have hclaim : claimArityAmendedAux (c :: rest) false 0 nc
                = claimArityAmendedAux rest false 0 nc := by
              simp [claimArityAmendedAux, h1, h2, h3, hbeq]
            rw [hcode, hclaim]
            exact ih false 0 nc (Or.inl ⟨rfl, rfl⟩)
    · subst haf
      by_cases h1 : c = '('
      · subst h1
        have hne : ¬ nb + 1 = 0 := by omega
        have hcode : countArgumentsAux ('(' :: rest) true nb nc
            = countArgumentsAux rest true (nb + 1) nc := by
          simp [countArgumentsAux, hpos]
        have hclaim : claimArityAmendedAux ('(' :: rest) true nb nc
            = claimArityAmendedAux rest true (nb + 1) nc := by
          simp [claimArityAmendedAux, hne]
        rw [hcode, hclaim]
        exact ih true (nb + 1) nc (Or.inr ⟨rfl, by omega⟩)
      · by_cases h2 : c = ')'
        · subst h2
          by_cases hone : nb = 1
          · subst hone
            have hstuck : countArgumentsAux rest true 0 nc = (true, nc) :=
              countArgumentsAux_stuck rest true 0 nc
                (by rintro (⟨h, -⟩ | ⟨-, h⟩)
                    · simp at h
                    · omega)
            have hcode : countArgumentsAux (')' :: rest) true 1 nc = (true, nc) := by
              simp [countArgumentsAux, hstuck]
            have hclaim : claimArityAmendedAux (')' :: rest) true 1 nc = nc + 1 := by
              simp [claimArityAmendedAux]
            rw [hcode, hclaim]
            simp
          · have hne : ¬ nb - 1 = 0 := by omega
            have hcode : countArgumentsAux (')' :: rest) true nb nc
                = countArgumentsAux rest true (nb - 1) nc := by
              simp [countArgumentsAux, hpos]
            have hclaim : claimArityAmendedAux (')' :: rest) true nb nc
                = claimArityAmendedAux rest true (nb - 1) nc := by
              simp [claimArityAmendedAux, hne]
            rw [hcode, hclaim]
            exact ih true (nb - 1) nc (Or.inr ⟨rfl, by omega⟩)
        · by_cases h3 : c = ','
          · subst h3
            by_cases hone : nb = 1
            · subst hone
              have hcode : countArgumentsAux (',' :: rest) true 1 nc
                  = countArgumentsAux rest true 1 (nc + 1) := by
                simp [countArgumentsAux]
              have hclaim : claimArityAmendedAux (',' :: rest) true 1 nc
                  = claimArityAmendedAux rest true 1 (nc + 1) := by
                simp [claimArityAmendedAux]
              rw [hcode, hclaim]
              exact ih true 1 (nc + 1) (Or.inr ⟨rfl, by omega⟩)
            · have h5 : ¬ nb < 1 := by omega
              have h6 : ¬ nb = 0 := by omega
              have hcode : countArgumentsAux (',' :: rest) true nb nc
                  = countArgumentsAux rest true nb nc := by
                simp [countArgumentsAux, hpos, hone, h5]
              have hclaim : claimArityAmendedAux (',' :: rest) true nb nc
                  = claimArityAmendedAux rest true nb nc := by
                simp [claimArityAmendedAux, hone, h6]
              rw [hcode, hclaim]
              exact ih true nb nc (Or.inr ⟨rfl, hpos⟩)
          · have hbeq : (c == '(') = false := beq_eq_false_iff_ne.mpr h1
            have h6 : ¬ nb = 0 := by omega
            have hcode : countArgumentsAux (c :: rest) true nb nc
                = countArgumentsAux rest true nb nc := by
              simp [countArgumentsAux, hpos, h1, h2, h3]
            have hclaim : claimArityAmendedAux (c :: rest) true nb nc
                = claimArityAmendedAux rest true nb nc := by
              simp [claimArityAmendedAux, h1, h2, h3, hbeq, h6]
            rw [hcode, hclaim]
            exact ih true nb nc (Or.inr ⟨rfl, hpos⟩)

/-- C3 (amended): count_arguments is exactly the scan the claim describes
once one further stop condition is added: the scan also stops, yielding 0,
at a closing parenthesis seen before any opening parenthesis (see
c3_counterexample for the input on which the claim's own scan differs).
The claim's named edge cases hold: the empty string yields 0 and a tail
beginning "()" yields 1. -/
theorem c3_arity_analyzer :
    (∀ s : List Char, count_arguments s = claimArityAmended s)
      ∧ count_arguments [] = 0
      ∧ (∀ rest : List Char, count_arguments ('(' :: ')' :: rest) = 1) := by
  refine ⟨?_, by decide, ?_⟩
  · intro s
    unfold count_arguments claimArityAmended
    exact countArguments_eq_claim s false 0 0 (Or.inl ⟨rfl, rfl⟩)
  · intro rest
    have hstuck : countArgumentsAux rest true 0 0 = (true, 0) :=
      countArgumentsAux_stuck rest true 0 0
        (by rintro (⟨h, -⟩ | ⟨-, h⟩)
            · simp at h
            · omega)
    have hbig : countArgumentsAux ('(' :: ')' :: rest) false 0 0 = (true, 0) := by
      simp [countArgumentsAux, hstuck]
    simp [count_arguments, hbig]
